import Mathlib

/-!
Verification development for the `ulang` compiler middle/back end
(`src/ast.rs`, `src/tacky.rs`, `src/assembly.rs`), shallowly embedded:
Rust mutation of `self` becomes explicit state passing, `Result`/panics
become `Except`, `Vec` becomes `List`, `HashMap` becomes an association
list (only `get`/`insert` are used, so iteration order never matters),
and `i32` becomes `Int` (no arithmetic in the modelled code can overflow
an `i32` on the inputs considered).
-/

namespace Ulang

/-- `Identifier` from `ast.rs`: a newtype over `String`. -/
structure Identifier where
  name : String
deriving DecidableEq, Repr

/-- `UnaryOperator`: `ast.rs` declares `Complement` and `Negate`; the
variant `Not` is matched by `assembly.rs` (`From<&UnaryOperator>`) and is
part of the data model of the spec, so it is included here. -/
inductive UnaryOperator where
  | Complement
  | Negate
  | Not
deriving DecidableEq, Repr

/-- AST-level `BinaryOperator` from `ast.rs`. -/
inductive BinaryOperator where
  | Add
  | Substract
  | Multiply
  | Divide
  | Remainder
  | And
  | Or
  | Equal
  | NotEqual
  | LessThan
  | LessOrEqual
  | GreaterThan
  | GreaterOrEqual
deriving DecidableEq, Repr

/-- `VarType` from `ast.rs`. -/
inductive VarType where
  | Int
  | Void
deriving DecidableEq, Repr

mutual

/-- `Expression` from `ast.rs`: a factor or a binary operation. -/
inductive Expression where
  | Factor (f : Factor)
  | Binary (lhs : Expression) (op : BinaryOperator) (rhs : Expression)
deriving Repr

/-- `Factor` from `ast.rs`. -/
inductive Factor where
  | Constant (c : Int)
  | Unary (op : UnaryOperator) (e : Expression)
  | ParentedExpression (e : Expression)
deriving Repr

end

/-- `Statement` from `ast.rs`. -/
inductive Statement where
  | VariableDeclaration (var_type : VarType) (name : String)
      (initializer : Option Expression)
  | ReturnStatement (e : Option Expression)
  | Compound (stmts : List Statement)
deriving Repr

/-- `FunctionDecl` from `ast.rs`. -/
structure FunctionDecl where
  return_type : VarType
  name : String
  parameters : List (VarType × String)
  body : Statement
deriving Repr

/-- `AstNode` from `ast.rs` (the `Expression`/`Statement` wrappers are
never consumed by the modelled pipeline but are kept for fidelity). -/
inductive AstNode where
  | Expression (e : Expression)
  | Statement (s : Statement)
  | FunctionDeclaration (f : FunctionDecl)
  | Program (nodes : List AstNode)
deriving Repr

/-- `Value` from `tacky.rs`: an IR value. -/
inductive Value where
  | Constant (c : Int)
  | Var (id : Identifier)
deriving DecidableEq, Repr

/-- `TackyBinaryOperator`. Modelled from the spec: the type itself is not
declared under `src/` (only its consumer `assembly.rs` is); spec §3 fixes
its variants — add, subtract, multiply, divide, remainder and the six
comparisons, with logical and/or explicitly absent — and `assembly.rs`
matches exactly these names. -/
inductive TackyBinaryOperator where
  | Add
  | Substract
  | Multiply
  | Divide
  | Remainder
  | Equal
  | NotEqual
  | LessThan
  | LessOrEqual
  | GreaterThan
  | GreaterOrEqual
deriving DecidableEq, Repr

/-- IR `Instruction`. `tacky.rs` declares the `Return` and `Unary`
variants; the remaining variants (`Binary`, `Copy`, `Jump`, `JumpIfZero`,
`JumpIfNotZero`, `Label`) are modelled from the spec (§3) and are exactly
the shapes matched by `assembly.rs`. -/
inductive Instruction where
  | Return (v : Value)
  | Unary (operator : UnaryOperator) (src : Value) (dest : Value)
  | Binary (operator : TackyBinaryOperator) (src1 : Value) (src2 : Value)
      (dest : Value)
  | Copy (src : Value) (dest : Value)
  | Jump (target : Identifier)
  | JumpIfZero (v : Value) (target : Identifier)
  | JumpIfNotZero (v : Value) (target : Identifier)
  | Label (l : Identifier)
deriving DecidableEq, Repr

/-- `FunctionDefinition` from `tacky.rs`. -/
structure FunctionDefinition where
  identifier : String
  instruction : List Instruction
deriving DecidableEq, Repr

/-- `TackyProgram` from `tacky.rs`. -/
structure TackyProgram where
  fn : FunctionDefinition
deriving DecidableEq, Repr

/-- The `Tacky` builder state from `tacky.rs` (`nodes`, `result`,
`counter`). -/
structure Tacky where
  nodes : List AstNode
  result : FunctionDefinition
  counter : Int
deriving Repr

/-- `Tacky::get_tmp_var`: mint `tmp.<counter>` and bump the counter. -/
def get_tmp_var (counter : Int) : Identifier × Int :=
  (⟨"tmp." ++ toString counter⟩, counter + 1)

mutual

/-- The body of `Tacky::parse_return` after the `Some` check, on the
expression itself.  The `Expression::Binary` arm of the source contains
only commented-out code and emits nothing. -/
def parseReturnExpr (counter : Int) (e : Expression) :
    Except String (Int × List Instruction) :=
  match e with
  | Expression.Binary _ _ _ => Except.ok (counter, [])
  | Expression.Factor f =>
    match f with
    | Factor.Constant c =>
      Except.ok (counter, [Instruction.Return (Value.Constant c)])
    | Factor.Unary uop inner =>
      let (id, c1) := get_tmp_var counter
      match parse_unary c1 uop inner id with
      | Except.error e => Except.error e
      | Except.ok (c2, insUnary) =>
        Except.ok (c2, insUnary ++ [Instruction.Return (Value.Var id)])
    | Factor.ParentedExpression inner => parseReturnExpr counter inner

/-- `Tacky::parse_unary`.  The `Expression::Binary` and
`Factor::ParentedExpression` arms are `todo!()` in the source, i.e. a
panic; a panic is modelled as an `Except.error` tagged with the panic
site. -/
def parse_unary (counter : Int) (uop : UnaryOperator) (e : Expression)
    (dst_name : Identifier) : Except String (Int × List Instruction) :=
  match e with
  | Expression.Binary _ _ _ =>
    Except.error "panic at tacky.rs:131: not yet implemented"
  | Expression.Factor f =>
    match f with
    | Factor.Constant c =>
      Except.ok (counter,
        [Instruction.Unary uop (Value.Constant c) (Value.Var dst_name)])
    | Factor.Unary innerOp innerE =>
      let (tmp, c1) := get_tmp_var counter
      match parse_unary c1 innerOp innerE tmp with
      | Except.error e => Except.error e
      | Except.ok (c2, innerIns) =>
        Except.ok (c2, innerIns ++
          [Instruction.Unary uop (Value.Var tmp) (Value.Var dst_name)])
    | Factor.ParentedExpression _ =>
      Except.error "panic at tacky.rs:153: not yet implemented"

end

/-- `Tacky::parse_return`: errors on a missing return value, otherwise
lowers the expression. -/
def parse_return (counter : Int) (e : Option Expression) :
    Except String (Int × List Instruction) :=
  match e with
  | none => Except.error "Missing return value"
  | some v => parseReturnExpr counter v

/-- The statement loop of the `Statement::Compound` arm of
`Tacky::parse`: each element is lowered in order; `VariableDeclaration`
and nested `Compound` elements are `todo!()` panics in the source,
modelled as errors tagged with the panic site. -/
def parseStatements (counter : Int) (acc : List Instruction) :
    List Statement → Except String (Int × List Instruction)
  | [] => Except.ok (counter, acc)
  | st :: rest =>
    match st with
    | Statement.VariableDeclaration _ _ _ =>
      Except.error "panic at tacky.rs:72: not yet implemented"
    | Statement.ReturnStatement e =>
      match parse_return counter e with
      | Except.error e => Except.error e
      | Except.ok (c1, ins) => parseStatements c1 (acc ++ ins) rest
    | Statement.Compound _ =>
      Except.error "panic at tacky.rs:77: not yet implemented"

/-- `Tacky::parse`: the first node must be a function declaration, whose
body is lowered statement by statement.  A top-level
`VariableDeclaration` body is a `todo!()` panic in the source, modelled
as an error tagged with the panic site. -/
def Tacky.parse (t : Tacky) : Except String TackyProgram :=
  match t.nodes.head? with
  | some (AstNode.FunctionDeclaration f) =>
    match f.body with
    | Statement.VariableDeclaration _ _ _ =>
      Except.error "panic at tacky.rs:60: not yet implemented"
    | Statement.ReturnStatement e =>
      match parse_return t.counter e with
      | Except.error e => Except.error e
      | Except.ok (_, ins) => Except.ok ⟨⟨f.name, ins⟩⟩
    | Statement.Compound vec =>
      match parseStatements t.counter [] vec with
      | Except.error e => Except.error e
      | Except.ok (_, ins) => Except.ok ⟨⟨f.name, ins⟩⟩
  | _ => Except.error ""

/-! ## Pseudo-assembly data model (`assembly.rs`) -/

/-- `TargetPlatform` from `assembly.rs`. -/
inductive TargetPlatform where
  | MacOsX64
  | X64Linux
deriving DecidableEq, Repr

/-- `AsmRegistry` from `assembly.rs`: the physical registers used. -/
inductive AsmRegistry where
  | AX
  | DX
  | R10
  | R11
deriving DecidableEq, Repr

/-- `Operand` from `assembly.rs`. -/
inductive Operand where
  | Register (r : AsmRegistry)
  | Imm (i : Int)
  | Stack (i : Int)
  | Pseudo (id : Identifier)
deriving DecidableEq, Repr

/-- `ConditionCode` from `assembly.rs`. -/
inductive ConditionCode where
  | E
  | NE
  | G
  | GE
  | L
  | LE
deriving DecidableEq, Repr

/-- `AsmUnaryOperator` from `assembly.rs`. -/
inductive AsmUnaryOperator where
  | Neg
  | Complement
  | Not
deriving DecidableEq, Repr

/-- `AsmBinaryOperator` from `assembly.rs`. -/
inductive AsmBinaryOperator where
  | Add
  | Sub
  | Mult
deriving DecidableEq, Repr

/-- `AsmInstruction` from `assembly.rs`. -/
inductive AsmInstruction where
  | Mov (src : Operand) (dst : Operand)
  | Unary (op : AsmUnaryOperator) (o : Operand)
  | Cmp (o1 : Operand) (o2 : Operand)
  | AllocateStack (i : Int)
  | Binary (op : AsmBinaryOperator) (o1 : Operand) (o2 : Operand)
  | Idiv (o : Operand)
  | Cdq
  | Jmp (target : Identifier)
  | JmpCC (cc : ConditionCode) (target : Identifier)
  | SetCC (cc : ConditionCode) (o : Operand)
  | Label (l : Identifier)
  | Return
deriving DecidableEq, Repr

/-- `AsmFunctionDef` from `assembly.rs`. -/
structure AsmFunctionDef where
  name : String
  instructions : List AsmInstruction
deriving DecidableEq, Repr

/-- `AsmProgram` from `assembly.rs`. -/
structure AsmProgram where
  fn : AsmFunctionDef
deriving DecidableEq, Repr

/-- `TryFrom<&TackyBinaryOperator> for ConditionCode` (`assembly.rs`
lines 61-74); `Err(())` becomes `none`. -/
def ccOfTacky : TackyBinaryOperator → Option ConditionCode
  | TackyBinaryOperator.LessThan => some ConditionCode.L
  | TackyBinaryOperator.LessOrEqual => some ConditionCode.LE
  | TackyBinaryOperator.GreaterThan => some ConditionCode.G
  | TackyBinaryOperator.GreaterOrEqual => some ConditionCode.GE
  | TackyBinaryOperator.Equal => some ConditionCode.E
  | TackyBinaryOperator.NotEqual => some ConditionCode.NE
  | _ => none

/-- `TryFrom<&TackyBinaryOperator> for AsmBinaryOperator`
(`assembly.rs` lines 114-124). -/
def asmBinOfTacky : TackyBinaryOperator → Option AsmBinaryOperator
  | TackyBinaryOperator.Add => some AsmBinaryOperator.Add
  | TackyBinaryOperator.Substract => some AsmBinaryOperator.Sub
  | TackyBinaryOperator.Multiply => some AsmBinaryOperator.Mult
  | _ => none

/-- `From<&UnaryOperator> for AsmUnaryOperator` (`assembly.rs`). -/
def asmUnaryOfAst : UnaryOperator → AsmUnaryOperator
  | UnaryOperator.Complement => AsmUnaryOperator.Complement
  | UnaryOperator.Negate => AsmUnaryOperator.Neg
  | UnaryOperator.Not => AsmUnaryOperator.Not

/-- `From<&Value> for Operand` (`assembly.rs`). -/
def opnd : Value → Operand
  | Value.Constant c => Operand.Imm c
  | Value.Var id => Operand.Pseudo id

/-- `AsmFunctionDef::parse_instruction` (`assembly.rs` lines 214-328),
as the chunk of instructions pushed for one IR instruction (the source
only ever pushes onto `self.instructions`).  The final `else` arm of the
`Binary` case panics in the source (`FAILED TO CONVERT`); it is
unreachable — every `TackyBinaryOperator` that is not `Divide`,
`Remainder` or a comparison has an `AsmBinaryOperator` image (see
`binary_operator_conversion_total`) — and is rendered as `[]`. -/
def parse_instruction : Instruction → List AsmInstruction
  | Instruction.Jump id => [AsmInstruction.Jmp id]
  | Instruction.Label id => [AsmInstruction.Label id]
  | Instruction.JumpIfZero v id =>
    [AsmInstruction.Cmp (Operand.Imm 0) (opnd v),
     AsmInstruction.JmpCC ConditionCode.E id]
  | Instruction.JumpIfNotZero v id =>
    [AsmInstruction.Cmp (Operand.Imm 0) (opnd v),
     AsmInstruction.JmpCC ConditionCode.NE id]
  | Instruction.Binary oper src1 src2 dest =>
    match oper with
    | TackyBinaryOperator.Divide =>
      [AsmInstruction.Mov (opnd src1) (Operand.Register AsmRegistry.AX),
       AsmInstruction.Cdq,
       AsmInstruction.Idiv (opnd src2),
       AsmInstruction.Mov (Operand.Register AsmRegistry.AX) (opnd dest)]
    | TackyBinaryOperator.Remainder =>
      [AsmInstruction.Mov (opnd src1) (Operand.Register AsmRegistry.AX),
       AsmInstruction.Cdq,
       AsmInstruction.Idiv (opnd src2),
       AsmInstruction.Mov (Operand.Register AsmRegistry.AX) (opnd dest)]
    | o =>
      match ccOfTacky o with
      | some condition_code =>
        [AsmInstruction.Cmp (opnd src2) (opnd src1),
         AsmInstruction.Mov (Operand.Imm 0) (opnd dest),
         AsmInstruction.SetCC condition_code (opnd dest)]
      | none =>
        match asmBinOfTacky o with
        | some operator =>
          [AsmInstruction.Mov (opnd src1) (opnd dest),
           AsmInstruction.Binary operator (opnd src2) (opnd dest)]
        | none => []
  | Instruction.Return v =>
    [AsmInstruction.Mov (opnd v) (Operand.Register AsmRegistry.AX),
     AsmInstruction.Return]
  | Instruction.Unary oper src dest =>
    match oper with
    | UnaryOperator.Not =>
      [AsmInstruction.Cmp (Operand.Imm 0) (opnd src),
       AsmInstruction.Mov (Operand.Imm 0) (opnd dest),
       AsmInstruction.SetCC ConditionCode.E (opnd dest)]
    | _ =>
      [AsmInstruction.Mov (opnd src) (opnd dest),
       AsmInstruction.Unary (asmUnaryOfAst oper) (opnd dest)]
  | Instruction.Copy src dest =>
    [AsmInstruction.Mov (opnd src) (opnd dest)]

/-- `From<&TackyProgram> for AsmProgram`: lower each IR instruction in
order. -/
def asmOfTacky (t : TackyProgram) : AsmProgram :=
  ⟨⟨t.fn.identifier, t.fn.instruction.flatMap parse_instruction⟩⟩

/-! ## Frame allocator (`assembly.rs` lines 331-449) -/

/-- Lookup in the association list modelling the `HashMap` of
`PseudoRegistryHash` (the map is only read via `get` and extended via
`insert` on a missing key, so an association list is an exact model). -/
def assocLookup : List (Identifier × Int) → Identifier → Option Int
  | [], _ => none
  | (k, v) :: rest, id => if k = id then some v else assocLookup rest id

/-- `PseudoRegistryHash` from `assembly.rs`. -/
structure PseudoRegistryHash where
  hash : List (Identifier × Int)
  counter : Int
deriving Repr

/-- `PseudoRegistryHash::new`. -/
def PseudoRegistryHash.new : PseudoRegistryHash := ⟨[], 0⟩

/-- `PseudoRegistryHash::get`: return the cached offset, or decrement
the counter by 4, record the new binding and return it. -/
def PseudoRegistryHash.get (s : PseudoRegistryHash) (id : Identifier) :
    Int × PseudoRegistryHash :=
  match assocLookup s.hash id with
  | some c => (c, s)
  | none =>
    let c := s.counter - 4
    (c, ⟨(id, c) :: s.hash, c⟩)

/-- `PseudoRegistryHash::stack_to_allocate`: absolute value of the
counter. -/
def PseudoRegistryHash.stack_to_allocate (s : PseudoRegistryHash) : Int :=
  (s.counter.natAbs : Int)

/-- Replace a pseudo operand with its stack slot, threading the hasher;
non-pseudo operands pass through with the hasher untouched (this is the
`if let Operand::Pseudo(id) = op` pattern of the source). -/
def replaceOperand (h : PseudoRegistryHash) (o : Operand) :
    Operand × PseudoRegistryHash :=
  match o with
  | Operand.Pseudo id =>
    let (v, h1) := h.get id
    (Operand.Stack v, h1)
  | o => (o, h)

/-- One iteration of the collection loop of
`From<AsmProgram> for AsmProgramWithReplacedPseudoRegisters`
(`assembly.rs` lines 369-436): returns the single-instruction
replacement slice for the matched arms (`none` for the `_` arm) plus the
updated hasher.  Arm order mirrors the source. -/
def pseudoStep (h : PseudoRegistryHash) (ins : AsmInstruction) :
    Option (List AsmInstruction) × PseudoRegistryHash :=
  match ins with
  | AsmInstruction.SetCC cc (Operand.Pseudo id) =>
    let (v, h1) := h.get id
    (some [AsmInstruction.SetCC cc (Operand.Stack v)], h1)
  | AsmInstruction.Cmp op1 op2 =>
    let (src_new, h1) := replaceOperand h op1
    let (dst_new, h2) := replaceOperand h1 op2
    (some [AsmInstruction.Cmp src_new dst_new], h2)
  | AsmInstruction.Mov src dst =>
    let (src_new, h1) := replaceOperand h src
    let (dst_new, h2) := replaceOperand h1 dst
    (some [AsmInstruction.Mov src_new dst_new], h2)
  | AsmInstruction.Unary uop (Operand.Pseudo id) =>
    let (v, h1) := h.get id
    (some [AsmInstruction.Unary uop (Operand.Stack v)], h1)
  | AsmInstruction.Binary oper o1 o2 =>
    let (src_new, h1) := replaceOperand h o1
    let (dst_new, h2) := replaceOperand h1 o2
    (some [AsmInstruction.Binary oper src_new dst_new], h2)
  | _ => (none, h)

/-- The collection loop: enumerate instructions from index `i`,
recording `(index, replacement-slice)` pairs in encounter order while
threading the hasher. -/
def collectPseudo (h : PseudoRegistryHash) (i : Nat) :
    List AsmInstruction →
    List (Nat × List AsmInstruction) × PseudoRegistryHash
  | [] => ([], h)
  | ins :: rest =>
    match pseudoStep h ins with
    | (some slice, h1) =>
      let (entries, h2) := collectPseudo h1 (i + 1) rest
      ((i, slice) :: entries, h2)
    | (none, h1) => collectPseudo h1 (i + 1) rest

/-- `replace_with_multiple_elements` (`assembly.rs` lines 505-513):
remove the element at `idx` and insert the slice there; out-of-range
indices leave the list unchanged. -/
def replaceWithMultiple (l : List AsmInstruction) (idx : Nat)
    (slice : List AsmInstruction) : List AsmInstruction :=
  if idx < l.length then l.take idx ++ slice ++ l.drop (idx + 1) else l

/-- `From<AsmProgram> for AsmProgramWithReplacedPseudoRegisters`: collect
the replacement slices in one pass, apply them from the highest index
down, and return the rewritten program plus the frame size. -/
def replacePseudos (p : AsmProgram) : AsmProgram × Int :=
  let (entries, hasher) :=
    collectPseudo PseudoRegistryHash.new 0 p.fn.instructions
  let instructions := entries.reverse.foldl
    (fun acc e => replaceWithMultiple acc e.1 e.2) p.fn.instructions
  (⟨⟨p.fn.name, instructions⟩⟩, hasher.stack_to_allocate)

/-! ## Legalizer (`assembly.rs` lines 451-503) -/

/-- The two `if let` tests of the legalizer loop body (`assembly.rs`
lines 458-482): every `Cmp` — whatever its operands — and every `Mov`
with both operands on the stack produce a two-instruction replacement
routed through the scratch register `R10`; everything else produces no
entry. -/
def needsFix : AsmInstruction → Option (AsmInstruction × AsmInstruction)
  | AsmInstruction.Cmp src dst =>
    some (AsmInstruction.Mov src (Operand.Register AsmRegistry.R10),
          AsmInstruction.Cmp (Operand.Register AsmRegistry.R10) dst)
  | AsmInstruction.Mov (Operand.Stack src) (Operand.Stack dst) =>
    some (AsmInstruction.Mov (Operand.Stack src)
            (Operand.Register AsmRegistry.R10),
          AsmInstruction.Mov (Operand.Register AsmRegistry.R10)
            (Operand.Stack dst))
  | _ => none

/-- The collection loop of the legalizer, enumerating from index `i`. -/
def collectFix (i : Nat) :
    List AsmInstruction → List (Nat × (AsmInstruction × AsmInstruction))
  | [] => []
  | ins :: rest =>
    match needsFix ins with
    | some p => (i, p) :: collectFix (i + 1) rest
    | none => collectFix (i + 1) rest

/-- `replace_with_two_elements` (`assembly.rs` lines 494-503). -/
def replaceWithTwo (l : List AsmInstruction) (idx : Nat)
    (e1 e2 : AsmInstruction) : List AsmInstruction :=
  if idx < l.length then l.take idx ++ [e1, e2] ++ l.drop (idx + 1) else l

/-- One application step of the legalizer rewrite loop. -/
def fixStep (acc : List AsmInstruction)
    (e : Nat × (AsmInstruction × AsmInstruction)) : List AsmInstruction :=
  replaceWithTwo acc e.1 e.2.1 e.2.2

/-- Shift the index of a collected legalizer rewrite entry by one
(bookkeeping device for relating the two enumeration bases). -/
def shiftEntry (e : Nat × (AsmInstruction × AsmInstruction)) :
    Nat × (AsmInstruction × AsmInstruction) :=
  (e.1 + 1, e.2)

/-- The rewrite-application loop of the legalizer: apply the collected
replacements from the highest index to the lowest. -/
def applyFix (l : List AsmInstruction) : List AsmInstruction :=
  (collectFix 0 l).reverse.foldl fixStep l

/-- The per-instruction effect of the legalizer (derived form): a
matched instruction becomes its two-instruction replacement, everything
else passes through. -/
def fixOne (ins : AsmInstruction) : List AsmInstruction :=
  match needsFix ins with
  | some p => [p.1, p.2]
  | none => [ins]

/-- `From<AsmProgramWithReplacedPseudoRegisters> for
AsmProgramWithFixedInstructions` at the instruction-list level: prepend
`AllocateStack frame` and run the rewrite loop over the whole list. -/
def legalizeList (input : List AsmInstruction) (frame : Int) :
    List AsmInstruction :=
  applyFix (AsmInstruction.AllocateStack frame :: input)

/-- The same pass at the program level. -/
def legalizeProgram (p : AsmProgram × Int) : AsmProgram :=
  ⟨⟨p.1.fn.name, legalizeList p.1.fn.instructions p.2⟩⟩

/-! ## Emitter (`assembly.rs` lines 515-555) -/

/-- `Display for AsmRegistry`. -/
def registryText : AsmRegistry → String
  | AsmRegistry.DX => "%edx"
  | AsmRegistry.AX => "%eax"
  | AsmRegistry.R10 => "%r10d"
  | AsmRegistry.R11 => "%r11d"

/-- `Display for Operand`. -/
def operandText : Operand → String
  | Operand.Register r => registryText r
  | Operand.Imm i => "$" ++ toString i
  | Operand.Stack i => toString i ++ "(%rbp)"
  | Operand.Pseudo id => "PSEUDO_" ++ id.name

/-- `Display for ConditionCode`. -/
def ccText : ConditionCode → String
  | ConditionCode.E => "e"
  | ConditionCode.NE => "ne"
  | ConditionCode.G => "g"
  | ConditionCode.GE => "ge"
  | ConditionCode.L => "l"
  | ConditionCode.LE => "le"

/-- `Display for AsmUnaryOperator` (the `Not` arm really renders as
`dddd` in the source). -/
def unaryText : AsmUnaryOperator → String
  | AsmUnaryOperator.Neg => "negl"
  | AsmUnaryOperator.Complement => "notl"
  | AsmUnaryOperator.Not => "dddd"

/-- `Display for AsmBinaryOperator`. -/
def binText : AsmBinaryOperator → String
  | AsmBinaryOperator.Add => "addl"
  | AsmBinaryOperator.Sub => "subl"
  | AsmBinaryOperator.Mult => "imull"

/-- One line (or epilogue block) of `AsmProgramWithFixedInstructions::
generate`; note the source prints `Cmp` operands in swapped order. -/
def instructionText : AsmInstruction → String
  | AsmInstruction.Mov src dst =>
    "\tmovl\t" ++ operandText src ++ ", " ++ operandText dst ++ "\n"
  | AsmInstruction.Unary op o =>
    "\t" ++ unaryText op ++ "\t" ++ operandText o ++ "\n"
  | AsmInstruction.AllocateStack i =>
    "\tsubq $" ++ toString i ++ ", %rsp\n"
  | AsmInstruction.Return => "\tmovq\t%rbp, %rsp\n\tpopq\t%rbp\n\tret\n"
  | AsmInstruction.Cdq => "\tcdq\n"
  | AsmInstruction.Binary op o1 o2 =>
    "\t" ++ binText op ++ "\t" ++ operandText o1 ++ ", " ++
      operandText o2 ++ "\n"
  | AsmInstruction.Idiv o => "\tidivl\t" ++ operandText o ++ "\n"
  | AsmInstruction.Cmp o o2 =>
    "\tcmpl\t" ++ operandText o2 ++ ", " ++ operandText o ++ "\n"
  | AsmInstruction.Jmp id => "\tjmp\t.L" ++ id.name ++ "\n"
  | AsmInstruction.JmpCC cc o => "\tj" ++ ccText cc ++ "\t.L" ++ o.name ++ "\n"
  | AsmInstruction.SetCC cc o =>
    "\tset" ++ ccText cc ++ "\t" ++ operandText o ++ "\n"
  | AsmInstruction.Label id => ".L" ++ id.name ++ ":\n"

/-- The platform-dependent symbol header of `generate`. -/
def emitHeader (platform : TargetPlatform) (name : String) : String :=
  if platform = TargetPlatform.MacOsX64 then
    "\t.globl _" ++ name ++ "\n" ++ "_" ++ name ++ ":\n"
  else
    "\t.globl " ++ name ++ "\n" ++ "." ++ name ++ ":\n"

/-- The platform-dependent trailer of `generate`. -/
def emitFooter (platform : TargetPlatform) : String :=
  if platform = TargetPlatform.X64Linux then
    "\t.section\t.note.GNU-stack,\"\",@progbits\n"
  else ""

/-- `AsmProgramWithFixedInstructions::generate`: header, fixed prologue,
one rendering per instruction accumulated left to right, then the
platform trailer. -/
def generate (p : AsmProgram) (platform : TargetPlatform) : String :=
  (p.fn.instructions.foldl (fun acc ins => acc ++ instructionText ins)
    (emitHeader platform p.fn.name ++ "\tpush\t%rbp\n" ++
      "\tmov\t%rsp, %rbp\n")) ++ emitFooter platform

/-- `generate_assembly` (`assembly.rs` lines 557-565): selector,
allocator, legalizer, emitter. -/
def generate_assembly (t : TackyProgram) (target : TargetPlatform) :
    String :=
  generate (legalizeProgram (replacePseudos (asmOfTacky t))) target

/-- The pipeline from the AST down: IR builder then assembly
generation. -/
def full_pipeline (t : Tacky) (target : TargetPlatform) :
    Except String String :=
  (Tacky.parse t).map (fun p => generate_assembly p target)

/-! ## Checker predicates (decidable observations on the embedded data) -/

/-- Is this operand a `Pseudo` operand? -/
def operandIsPseudo : Operand → Bool
  | Operand.Pseudo _ => true
  | _ => false

/-- Does any operand position of this instruction hold a `Pseudo`
operand? Covers every operand-carrying shape, `Idiv` included. -/
def insHasPseudo : AsmInstruction → Bool
  | AsmInstruction.Mov src dst => operandIsPseudo src || operandIsPseudo dst
  | AsmInstruction.Unary _ o => operandIsPseudo o
  | AsmInstruction.Cmp o1 o2 => operandIsPseudo o1 || operandIsPseudo o2
  | AsmInstruction.Binary _ o1 o2 =>
    operandIsPseudo o1 || operandIsPseudo o2
  | AsmInstruction.Idiv o => operandIsPseudo o
  | AsmInstruction.SetCC _ o => operandIsPseudo o
  | _ => false

/-- Is this instruction a `Cmp` (with any operands)? -/
def isCmpIns : AsmInstruction → Bool
  | AsmInstruction.Cmp _ _ => true
  | _ => false

/-- Is this instruction a `Mov` with both operands on the stack? -/
def isBothStackMov : AsmInstruction → Bool
  | AsmInstruction.Mov (Operand.Stack _) (Operand.Stack _) => true
  | _ => false

/-- Is this instruction an `AllocateStack`? -/
def isAllocIns : AsmInstruction → Bool
  | AsmInstruction.AllocateStack _ => true
  | _ => false

/-- Is this a `Mov` or `Cmp` whose two operands are both stack slots
(the operand pairing the target ISA forbids)? -/
def isBothStackViol : AsmInstruction → Bool
  | AsmInstruction.Mov (Operand.Stack _) (Operand.Stack _) => true
  | AsmInstruction.Cmp (Operand.Stack _) (Operand.Stack _) => true
  | _ => false

/-- Run a sequence of further `PseudoRegistryHash.get` calls, keeping
only the final state. -/
def getMany (s : PseudoRegistryHash) (ids : List Identifier) :
    PseudoRegistryHash :=
  ids.foldl (fun st i => (st.get i).2) s

/-- Is this statement one of the kinds the IR builder's `Compound` loop
does not lower (`VariableDeclaration`, nested `Compound`)? -/
def stUnsupported : Statement → Bool
  | Statement.VariableDeclaration _ _ _ => true
  | Statement.Compound _ => true
  | _ => false

/-- Does this function body hit an unsupported arm of `Tacky::parse`
(a bare `VariableDeclaration` body, or a `Compound` body containing a
declaration or a nested block)? -/
def bodyUnsupported : Statement → Bool
  | Statement.VariableDeclaration _ _ _ => true
  | Statement.ReturnStatement _ => false
  | Statement.Compound vec => vec.any stUnsupported

/-! ## Helper lemmas

The legalizer applies its collected rewrites from the highest index to
the lowest (spec §4.4 calls this an implementation invariant).  The
lemmas here show this index dance equals a single left-to-right pass
appending `fixOne` of each instruction. -/

/-- Shifting the enumeration base of the legalizer collection loop
shifts every recorded index. -/
theorem collectFix_shift (l : List AsmInstruction) (i : Nat) :
    collectFix (i + 1) l = (collectFix i l).map shiftEntry := by
  induction l generalizing i with
  | nil => rfl
  | cons x xs ih =>
    cases h : needsFix x <;> simp [collectFix, h, ih, shiftEntry]

/-- The collection loop on a cons cell: an optional index-0 entry
followed by the tail's entries, all shifted by one. -/
theorem collectFix_cons (x : AsmInstruction) (xs : List AsmInstruction) :
    collectFix 0 (x :: xs) =
      (match needsFix x with
        | some p => [(0, p)]
        | none => []) ++ (collectFix 0 xs).map shiftEntry := by
  cases h : needsFix x <;>
    simp [collectFix, h, show (0 : Nat) + 1 = 1 from rfl,
      collectFix_shift xs 0]

/-- Replacing at a successor index skips the head. -/
theorem replaceWithTwo_cons (x : AsmInstruction) (l : List AsmInstruction)
    (i : Nat) (a b : AsmInstruction) :
    replaceWithTwo (x :: l) (i + 1) a b = x :: replaceWithTwo l i a b := by
  simp only [replaceWithTwo, List.length_cons]
  rcases Nat.lt_or_ge i l.length with h | h
  · rw [if_pos (by omega), if_pos h]
    simp [List.take_succ_cons, List.drop_succ_cons]
  · rw [if_neg (by omega), if_neg (by omega)]

/-- A rewrite step with a shifted index skips the head. -/
theorem fixStep_shift (x : AsmInstruction) (acc : List AsmInstruction)
    (e : Nat × (AsmInstruction × AsmInstruction)) :
    fixStep (x :: acc) (shiftEntry e) = x :: fixStep acc e := by
  obtain ⟨i, a, b⟩ := e
  exact replaceWithTwo_cons x acc i a b

/-- A rewrite step at index 0 of a nonempty list replaces the head by
the two replacement instructions. -/
theorem fixStep_zero (x : AsmInstruction) (r : List AsmInstruction)
    (p : AsmInstruction × AsmInstruction) :
    fixStep (x :: r) (0, p) = p.1 :: p.2 :: r := by
  simp [fixStep, replaceWithTwo]

/-- Folding rewrite steps whose indices are all shifted by one leaves
the head untouched. -/
theorem foldl_fixStep_shift
    (es : List (Nat × (AsmInstruction × AsmInstruction)))
    (x : AsmInstruction) (acc : List AsmInstruction) :
    (es.map shiftEntry).foldl fixStep (x :: acc) =
      x :: es.foldl fixStep acc := by
  induction es generalizing acc with
  | nil => rfl
  | cons e rest ih =>
    simp only [List.map_cons, List.foldl_cons, fixStep_shift]
    exact ih _

/-- The highest-index-first rewrite application of the legalizer equals
one left-to-right `fixOne` expansion pass. -/
theorem applyFix_eq_flatMap (l : List AsmInstruction) :
    applyFix l = l.flatMap fixOne := by
  induction l with
  | nil => rfl
  | cons x xs ih =>
    have hrec : (collectFix 0 xs).reverse.foldl fixStep xs = applyFix xs := rfl
    cases h : needsFix x with
    | none =>
      have hc : collectFix 0 (x :: xs) =
          (collectFix 0 xs).map shiftEntry := by
        simpa [h] using collectFix_cons x xs
      calc applyFix (x :: xs)
          = ((collectFix 0 xs).map shiftEntry).reverse.foldl
              fixStep (x :: xs) := by rw [applyFix, hc]
        _ = ((collectFix 0 xs).reverse.map shiftEntry).foldl
              fixStep (x :: xs) := by rw [List.map_reverse]
        _ = x :: (collectFix 0 xs).reverse.foldl fixStep xs :=
              foldl_fixStep_shift _ x xs
        _ = x :: xs.flatMap fixOne := by rw [hrec, ih]
        _ = (x :: xs).flatMap fixOne := by simp [fixOne, h]
    | some p =>
      have hc : collectFix 0 (x :: xs) =
          (0, p) :: (collectFix 0 xs).map shiftEntry := by
        simpa [h] using collectFix_cons x xs
      calc applyFix (x :: xs)
          = ((0, p) ::
              (collectFix 0 xs).map shiftEntry).reverse.foldl
              fixStep (x :: xs) := by rw [applyFix, hc]
        _ = (((collectFix 0 xs).map shiftEntry).reverse ++
              [(0, p)]).foldl fixStep (x :: xs) := by
              rw [List.reverse_cons]
        _ = fixStep
              (((collectFix 0 xs).map shiftEntry).reverse.foldl
                fixStep (x :: xs)) (0, p) := by rw [List.foldl_append]; rfl
        _ = fixStep
              (((collectFix 0 xs).reverse.map shiftEntry).foldl
                fixStep (x :: xs)) (0, p) := by rw [List.map_reverse]
        _ = fixStep (x :: (collectFix 0 xs).reverse.foldl fixStep xs)
              (0, p) := by rw [foldl_fixStep_shift]
        _ = p.1 :: p.2 :: applyFix xs := by rw [fixStep_zero, hrec]
        _ = (x :: xs).flatMap fixOne := by simp [fixOne, h, ih]

/-- The `panic!("FAILED TO CONVERT ...")` arm of `parse_instruction` is
unreachable: an operator with no condition code always has an assembly
binary operator. -/
theorem binary_operator_conversion_total (o : TackyBinaryOperator) :
    o ≠ TackyBinaryOperator.Divide → o ≠ TackyBinaryOperator.Remainder →
    ccOfTacky o = none → (asmBinOfTacky o).isSome = true := by
  cases o <;> simp [ccOfTacky, asmBinOfTacky]

/-- A `flatMap` whose every chunk is free of `p`-instructions is free of
them. -/
theorem countP_flatMap_zero {f : AsmInstruction → List AsmInstruction}
    {p : AsmInstruction → Bool} (l : List AsmInstruction)
    (h : ∀ i ∈ l, (f i).countP p = 0) : (l.flatMap f).countP p = 0 := by
  induction l with
  | nil => rfl
  | cons x xs ih =>
    rw [List.flatMap_cons, List.countP_append, h x (by simp),
      ih (fun i hi => h i (by simp [hi]))]

/-- A legalizer chunk contains no `AllocateStack` unless its input was
one. -/
theorem fixOne_no_alloc (i : AsmInstruction) (h : isAllocIns i = false) :
    (fixOne i).countP isAllocIns = 0 := by
  cases i with
  | Mov s d =>
    cases s <;> cases d <;>
      simp [fixOne, needsFix, isAllocIns, List.countP_cons]
  | Cmp o1 o2 => simp [fixOne, needsFix, isAllocIns, List.countP_cons]
  | AllocateStack k => simp [isAllocIns] at h
  | Unary op o => simp [fixOne, needsFix, isAllocIns, List.countP_cons]
  | Binary op o1 o2 => simp [fixOne, needsFix, isAllocIns, List.countP_cons]
  | Idiv o => simp [fixOne, needsFix, isAllocIns, List.countP_cons]
  | Cdq => simp [fixOne, needsFix, isAllocIns, List.countP_cons]
  | Jmp t => simp [fixOne, needsFix, isAllocIns, List.countP_cons]
  | JmpCC cc t => simp [fixOne, needsFix, isAllocIns, List.countP_cons]
  | SetCC cc o => simp [fixOne, needsFix, isAllocIns, List.countP_cons]
  | Label l => simp [fixOne, needsFix, isAllocIns, List.countP_cons]
  | Return => simp [fixOne, needsFix, isAllocIns, List.countP_cons]

/-- A legalizer chunk never contains a memory-to-memory `Mov` or
`Cmp`. -/
theorem fixOne_no_viol (i : AsmInstruction) :
    (fixOne i).countP isBothStackViol = 0 := by
  cases i with
  | Mov s d =>
    cases s <;> cases d <;>
      simp [fixOne, needsFix, isBothStackViol, List.countP_cons]
  | Cmp o1 o2 =>
    cases o1 <;> cases o2 <;>
      simp [fixOne, needsFix, isBothStackViol, List.countP_cons]
  | AllocateStack k => simp [fixOne, needsFix, isBothStackViol, List.countP_cons]
  | Unary op o => simp [fixOne, needsFix, isBothStackViol, List.countP_cons]
  | Binary op o1 o2 => simp [fixOne, needsFix, isBothStackViol, List.countP_cons]
  | Idiv o => simp [fixOne, needsFix, isBothStackViol, List.countP_cons]
  | Cdq => simp [fixOne, needsFix, isBothStackViol, List.countP_cons]
  | Jmp t => simp [fixOne, needsFix, isBothStackViol, List.countP_cons]
  | JmpCC cc t => simp [fixOne, needsFix, isBothStackViol, List.countP_cons]
  | SetCC cc o => simp [fixOne, needsFix, isBothStackViol, List.countP_cons]
  | Label l => simp [fixOne, needsFix, isBothStackViol, List.countP_cons]
  | Return => simp [fixOne, needsFix, isBothStackViol, List.countP_cons]

/-! ## Claim theorems -/

/-- **C1** (refuted; evidence for the code bug): on the instruction
`Binary(remainder, 7, 2, t)` the instruction selector emits
`Mov(7, AX)`, `Cdq`, `Idiv(2)` and then a `Mov` whose source is the AX
register — not the DX register the claim (and x86 semantics for a
remainder) requires; moreover the remainder expansion is identical to
the divide expansion for all operands, rather than differing in the
copied-out register. -/
theorem remainder_expansion_copies_ax :
    parse_instruction (Instruction.Binary TackyBinaryOperator.Remainder
        (Value.Constant 7) (Value.Constant 2) (Value.Var ⟨"t"⟩)) =
      [AsmInstruction.Mov (Operand.Imm 7) (Operand.Register AsmRegistry.AX),
       AsmInstruction.Cdq,
       AsmInstruction.Idiv (Operand.Imm 2),
       AsmInstruction.Mov (Operand.Register AsmRegistry.AX)
         (Operand.Pseudo ⟨"t"⟩)] ∧
    parse_instruction (Instruction.Binary TackyBinaryOperator.Remainder
        (Value.Constant 7) (Value.Constant 2) (Value.Var ⟨"t"⟩)) ≠
      [AsmInstruction.Mov (Operand.Imm 7) (Operand.Register AsmRegistry.AX),
       AsmInstruction.Cdq,
       AsmInstruction.Idiv (Operand.Imm 2),
       AsmInstruction.Mov (Operand.Register AsmRegistry.DX)
         (Operand.Pseudo ⟨"t"⟩)] ∧
    (∀ a b dest : Value,
      parse_instruction (Instruction.Binary TackyBinaryOperator.Remainder
        a b dest) =
      parse_instruction (Instruction.Binary TackyBinaryOperator.Divide
        a b dest)) :=
  ⟨rfl, by decide, fun _ _ _ => rfl⟩

/-- **C2** (refuted; evidence for the code bug): lowering
`return 1 + 2;` succeeds with an empty instruction list — the
`Expression::Binary` arm of `Tacky::parse_return` contains only
commented-out code, so no operand evaluation and no `Binary` IR
instruction is emitted. -/
theorem binary_return_emits_nothing :
    Tacky.parse ⟨[AstNode.FunctionDeclaration ⟨VarType.Int, "main", [],
        Statement.ReturnStatement (some (Expression.Binary
          (Expression.Factor (Factor.Constant 1)) BinaryOperator.Add
          (Expression.Factor (Factor.Constant 2))))⟩], ⟨"", []⟩, 0⟩ =
      Except.ok ⟨⟨"main", []⟩⟩ := rfl

/-- **C3** (refuted; evidence for the code bug): the frame allocator's
collection loop has no arm for `Idiv`, so an `Idiv(Pseudo("x"))`
instruction passes through the allocator unchanged and a `Pseudo`
operand survives in its output. -/
theorem idiv_pseudo_survives_allocator :
    (replacePseudos ⟨⟨"main",
        [AsmInstruction.Idiv (Operand.Pseudo ⟨"x"⟩)]⟩⟩).1.fn.instructions =
      [AsmInstruction.Idiv (Operand.Pseudo ⟨"x"⟩)] ∧
    ((replacePseudos ⟨⟨"main",
        [AsmInstruction.Idiv (Operand.Pseudo ⟨"x"⟩)]⟩⟩).1.fn.instructions.any
      insHasPseudo) = true :=
  ⟨rfl, rfl⟩

/-- **C4** (counterexample): a `Cmp` whose operands are an immediate
and a register — not both `Stack` — is nevertheless rewritten by the
legalizer into a `Mov` through `R10` followed by a `Cmp`, refuting
"a Cmp whose operands are not both Stack is not rewritten". -/
theorem cmp_register_operands_rewritten :
    legalizeList [AsmInstruction.Cmp (Operand.Imm 0)
        (Operand.Register AsmRegistry.AX)] 0 =
      [AsmInstruction.AllocateStack 0,
       AsmInstruction.Mov (Operand.Imm 0) (Operand.Register AsmRegistry.R10),
       AsmInstruction.Cmp (Operand.Register AsmRegistry.R10)
         (Operand.Register AsmRegistry.AX)] ∧
    legalizeList [AsmInstruction.Cmp (Operand.Imm 0)
        (Operand.Register AsmRegistry.AX)] 0 ≠
      [AsmInstruction.AllocateStack 0,
       AsmInstruction.Cmp (Operand.Imm 0)
         (Operand.Register AsmRegistry.AX)] :=
  ⟨rfl, by decide⟩

/-- **C4** (amended): the legalizer rewrites exactly the instructions
that are a `Mov` with both operands `Stack` or a `Cmp` with ANY
operands, replacing each single match with two instructions (first a
move of the source operand into the scratch register R10, then the
original operation with R10 substituted for the source); every other
instruction passes through unchanged. -/
theorem legalizer_rewrite_policy :
    (∀ (input : List AsmInstruction) (frame : Int),
      legalizeList input frame =
        AsmInstruction.AllocateStack frame :: input.flatMap fixOne) ∧
    (∀ s d, fixOne (AsmInstruction.Cmp s d) =
      [AsmInstruction.Mov s (Operand.Register AsmRegistry.R10),
       AsmInstruction.Cmp (Operand.Register AsmRegistry.R10) d]) ∧
    (∀ s d, fixOne (AsmInstruction.Mov (Operand.Stack s) (Operand.Stack d)) =
      [AsmInstruction.Mov (Operand.Stack s)
         (Operand.Register AsmRegistry.R10),
       AsmInstruction.Mov (Operand.Register AsmRegistry.R10)
         (Operand.Stack d)]) ∧
    (∀ ins, isCmpIns ins = false → isBothStackMov ins = false →
      fixOne ins = [ins]) := by
  refine ⟨?_, fun s d => rfl, fun s d => rfl, ?_⟩
  · intro input frame
    rw [legalizeList, applyFix_eq_flatMap]
    rfl
  · intro ins h1 h2
    cases ins with
    | Mov s d =>
      cases s <;> cases d <;> simp_all [fixOne, needsFix, isBothStackMov]
    | Cmp o1 o2 => simp [isCmpIns] at h1
    | Unary op o => rfl
    | AllocateStack k => rfl
    | Binary op o1 o2 => rfl
    | Idiv o => rfl
    | Cdq => rfl
    | Jmp t => rfl
    | JmpCC cc t => rfl
    | SetCC cc o => rfl
    | Label l => rfl
    | Return => rfl

/-- Witness for `legalizer_rewrite_policy` at a concrete pass-through
instruction. -/
theorem legalizer_rewrite_policy_witness :
    fixOne AsmInstruction.Return = [AsmInstruction.Return] :=
  legalizer_rewrite_policy.2.2.2 AsmInstruction.Return rfl rfl

/-- **C5**: for every instruction list (one containing no
`AllocateStack`, as the allocator produces) and frame size, the
legalizer's output begins with `AllocateStack(frame)`, contains exactly
one `AllocateStack`, and contains zero `Mov`/`Cmp` instructions whose
two operands are both `Stack`. -/
theorem legalizer_output_invariants (input : List AsmInstruction)
    (frame : Int) (h : ∀ i ∈ input, isAllocIns i = false) :
    (legalizeList input frame).head? =
        some (AsmInstruction.AllocateStack frame) ∧
    (legalizeList input frame).countP isAllocIns = 1 ∧
    (legalizeList input frame).countP isBothStackViol = 0 := by
  have hb : legalizeList input frame =
      AsmInstruction.AllocateStack frame :: input.flatMap fixOne := by
    rw [legalizeList, applyFix_eq_flatMap]; rfl
  refine ⟨by rw [hb]; rfl, ?_, ?_⟩
  · rw [hb, List.countP_cons,
      countP_flatMap_zero input (fun i hi => fixOne_no_alloc i (h i hi))]
    simp [isAllocIns]
  · rw [hb, List.countP_cons,
      countP_flatMap_zero input (fun i _ => fixOne_no_viol i)]
    simp [isBothStackViol]

/-- Witness for `legalizer_output_invariants` on the empty allocated
list. -/
theorem legalizer_output_invariants_witness :
    (legalizeList [] 0).head? = some (AsmInstruction.AllocateStack 0) ∧
    (legalizeList [] 0).countP isAllocIns = 1 ∧
    (legalizeList [] 0).countP isBothStackViol = 0 :=
  legalizer_output_invariants [] 0 (by simp)

/-- **C6**: for every IR `Binary(op, a, b, dest)` with a comparison
operator, the selector emits exactly `Cmp(b, a)`, `Mov(0, dest)`,
`SetCC(cc, dest)`, and the condition code is the direct image of the
operator (equal→E, not-equal→NE, less→L, less-or-equal→LE, greater→G,
greater-or-equal→GE). -/
theorem comparison_selection :
    (∀ (oper : TackyBinaryOperator) (a b dest : Value) (cc : ConditionCode),
      ccOfTacky oper = some cc →
      parse_instruction (Instruction.Binary oper a b dest) =
        [AsmInstruction.Cmp (opnd b) (opnd a),
         AsmInstruction.Mov (Operand.Imm 0) (opnd dest),
         AsmInstruction.SetCC cc (opnd dest)]) ∧
    ccOfTacky TackyBinaryOperator.Equal = some ConditionCode.E ∧
    ccOfTacky TackyBinaryOperator.NotEqual = some ConditionCode.NE ∧
    ccOfTacky TackyBinaryOperator.LessThan = some ConditionCode.L ∧
    ccOfTacky TackyBinaryOperator.LessOrEqual = some ConditionCode.LE ∧
    ccOfTacky TackyBinaryOperator.GreaterThan = some ConditionCode.G ∧
    ccOfTacky TackyBinaryOperator.GreaterOrEqual = some ConditionCode.GE := by
  refine ⟨?_, rfl, rfl, rfl, rfl, rfl, rfl⟩
  intro oper a b dest cc h
  cases oper <;> simp_all [ccOfTacky, parse_instruction]

/-- Witness for `comparison_selection` at `Binary(equal, 1, 2, d)`. -/
theorem comparison_selection_witness :
    parse_instruction (Instruction.Binary TackyBinaryOperator.Equal
        (Value.Constant 1) (Value.Constant 2) (Value.Var ⟨"d"⟩)) =
      [AsmInstruction.Cmp (Operand.Imm 2) (Operand.Imm 1),
       AsmInstruction.Mov (Operand.Imm 0) (Operand.Pseudo ⟨"d"⟩),
       AsmInstruction.SetCC ConditionCode.E (Operand.Pseudo ⟨"d"⟩)] :=
  comparison_selection.1 TackyBinaryOperator.Equal (Value.Constant 1)
    (Value.Constant 2) (Value.Var ⟨"d"⟩) ConditionCode.E rfl

/-- **C7**: for every function whose body is a single
`return <int literal>;` (as the front end delivers it, a one-statement
block), the full pipeline produces exactly the platform header, the
prologue, the frame reservation, a `movl $<literal>, %eax`, the
epilogue (`ret`), and the platform trailer; the output being one fixed
string of the input, repeated compilation is identical. -/
theorem return_literal_pipeline (c : Int) (name : String)
    (platform : TargetPlatform) :
    full_pipeline ⟨[AstNode.FunctionDeclaration ⟨VarType.Int, name, [],
        Statement.Compound [Statement.ReturnStatement
          (some (Expression.Factor (Factor.Constant c)))]⟩], ⟨"", []⟩, 0⟩
      platform =
      Except.ok (emitHeader platform name ++ "\tpush\t%rbp\n" ++
        "\tmov\t%rsp, %rbp\n" ++ "\tsubq $0, %rsp\n" ++
        ("\tmovl\t" ++ ("$" ++ toString c) ++ ", " ++ "%eax" ++ "\n") ++
        "\tmovq\t%rbp, %rsp\n\tpopq\t%rbp\n\tret\n" ++
        emitFooter platform) := rfl

/-- Binding produced by a `PseudoRegistryHash.get` is visible in the
resulting state. -/
theorem lookup_after_get (s : PseudoRegistryHash) (id : Identifier) :
    assocLookup ((s.get id).2).hash id = some ((s.get id).1) := by
  rcases h : assocLookup s.hash id with _ | c
  · simp [PseudoRegistryHash.get, h, assocLookup]
  · simp [PseudoRegistryHash.get, h]

/-- A `PseudoRegistryHash.get` on any name preserves every existing
binding. -/
theorem lookup_preserved (s : PseudoRegistryHash) (id id' : Identifier)
    (v : Int) (h : assocLookup s.hash id = some v) :
    assocLookup ((s.get id').2).hash id = some v := by
  rcases h' : assocLookup s.hash id' with _ | c
  · have hne : id' ≠ id := by
      intro he
      rw [he] at h'
      rw [h'] at h
      cases h
    simp [PseudoRegistryHash.get, h', assocLookup, hne, h]
  · simp [PseudoRegistryHash.get, h', h]

/-- Any sequence of further `get` calls preserves an existing
binding. -/
theorem lookup_getMany (s : PseudoRegistryHash) (id : Identifier)
    (v : Int) (ids : List Identifier)
    (h : assocLookup s.hash id = some v) :
    assocLookup (getMany s ids).hash id = some v := by
  induction ids generalizing s with
  | nil => exact h
  | cons i rest ih => exact ih _ (lookup_preserved s id i v h)

/-- A lookup that hits the cache returns the cached offset and the
state unchanged. -/
theorem get_hit (s : PseudoRegistryHash) (id : Identifier) (v : Int)
    (h : assocLookup s.hash id = some v) : s.get id = (v, s) := by
  simp [PseudoRegistryHash.get, h]

/-- **C8**: a second or later lookup of the same temporary name — with
any interleaved lookups of other names in between — returns exactly the
offset of the first lookup and leaves the counter and map unchanged
(the returned state is the incoming state). -/
theorem frame_slot_idempotent (s : PseudoRegistryHash) (id : Identifier)
    (later : List Identifier) :
    (getMany ((s.get id).2) later).get id =
      ((s.get id).1, getMany ((s.get id).2) later) :=
  get_hit _ _ _ (lookup_getMany ((s.get id).2) id ((s.get id).1) later
    (lookup_after_get s id))

/-- A `Compound` body whose statement list contains an unsupported
statement kind always makes the statement loop fail. -/
theorem parseStatements_fails (vec : List Statement) :
    ∀ (c : Int) (acc : List Instruction), vec.any stUnsupported = true →
    (parseStatements c acc vec).isOk = false := by
  induction vec with
  | nil => intro c acc h; simp at h
  | cons st rest ih =>
    intro c acc h
    cases st with
    | VariableDeclaration a b d => rfl
    | Compound v => rfl
    | ReturnStatement e =>
      have hrest : rest.any stUnsupported = true := by
        simpa [stUnsupported] using h
      cases hpr : parse_return c e with
      | error msg => simp [parseStatements, hpr, Except.isOk, Except.toBool]
      | ok pr =>
        obtain ⟨c1, ins⟩ := pr
        simpa [parseStatements, hpr] using ih c1 (acc ++ ins) hrest

/-- **C9**: when the function body given to the IR builder is (or, for
a block, contains) a statement kind it does not model — a variable
declaration, or a nested block — the builder fails and produces no IR
program. -/
theorem tacky_rejects_unsupported (f : FunctionDecl) (rest : List AstNode)
    (res : FunctionDefinition) (c : Int)
    (h : bodyUnsupported f.body = true) :
    (Tacky.parse ⟨AstNode.FunctionDeclaration f :: rest, res, c⟩).isOk =
      false := by
  obtain ⟨rt, nm, ps, body⟩ := f
  cases body with
  | VariableDeclaration a b d => rfl
  | ReturnStatement e => simp [bodyUnsupported] at h
  | Compound vec =>
    have hfail := parseStatements_fails vec c []
      (by simpa [bodyUnsupported] using h)
    simp only [Tacky.parse, List.head?]
    cases hps : parseStatements c [] vec with
    | error m => rfl
    | ok pr =>
      rw [hps] at hfail
      exact Bool.noConfusion hfail

/-- Witness for `tacky_rejects_unsupported` on a bare variable
declaration body. -/
theorem tacky_rejects_unsupported_witness :
    (Tacky.parse ⟨[AstNode.FunctionDeclaration ⟨VarType.Int, "f", [],
        Statement.VariableDeclaration VarType.Int "x" none⟩], ⟨"", []⟩,
        0⟩).isOk = false :=
  tacky_rejects_unsupported ⟨VarType.Int, "f", [],
    Statement.VariableDeclaration VarType.Int "x" none⟩ [] ⟨"", []⟩ 0 rfl

/-- **C10**: lowering a function whose return expression is a top-level
binary operation succeeds (`Ok`) and emits zero instructions — the
resulting function definition has an empty instruction list, whatever
the operands, operator, temporary counter and surrounding nodes are. -/
theorem binary_return_parses_to_empty (rt : VarType) (name : String)
    (params : List (VarType × String)) (e1 : Expression)
    (op : BinaryOperator) (e2 : Expression) (rest : List AstNode)
    (res : FunctionDefinition) (c : Int) :
    Tacky.parse ⟨AstNode.FunctionDeclaration
        ⟨rt, name, params, Statement.ReturnStatement
          (some (Expression.Binary e1 op e2))⟩ :: rest, res, c⟩ =
      Except.ok ⟨⟨name, []⟩⟩ := rfl

end Ulang
